import Mathlib

/-!
Shallow embedding of the QuantStack numerical pipeline
(quant_trading_system: src/trading/backtest.py, src/analytics/signals.py,
src/analytics/features.py).

Numeric model: pandas/numpy float values are idealised as an ordered field
carrying the three special values NaN, +inf and -inf, with the IEEE-754
propagation rules used by numpy (0 * inf = NaN, x / 0 = signed inf for
x different from 0, 0 / 0 = NaN, comparisons with NaN are false) and the
pandas skip-NaN conventions for reductions (sum of an all-NaN row is 0,
mean of an all-NaN row is NaN, cumprod and cummax keep NaN cells in place
while skipping them in the accumulator).  Rounding error is not modelled:
field values are exact.  Because the square root of 252 is irrational, the
square-root function used by the code (numpy sqrt) is passed in as an
explicit parameter of the embedding, so that the development stays
computable and can be instantiated either at the rationals (for concrete
evaluation) or at the reals with the genuine square root.
-/

namespace QuantStack

/-- A pandas scalar: a finite field value, one of the two infinities, or NaN. -/
inductive PV (α : Type) where
  | fin (q : α)
  | pinf
  | ninf
  | nan
deriving DecidableEq, Repr

namespace PV

variable {α : Type} [LinearOrderedField α]

/-- IEEE negation. -/
def neg : PV α → PV α
  | fin q => fin (-q)
  | pinf => ninf
  | ninf => pinf
  | nan => nan

/-- IEEE addition: infinities of opposite sign give NaN; NaN propagates. -/
def add : PV α → PV α → PV α
  | nan, _ => nan
  | _, nan => nan
  | fin a, fin b => fin (a + b)
  | fin _, pinf => pinf
  | fin _, ninf => ninf
  | pinf, fin _ => pinf
  | ninf, fin _ => ninf
  | pinf, pinf => pinf
  | ninf, ninf => ninf
  | pinf, ninf => nan
  | ninf, pinf => nan

/-- IEEE subtraction. -/
def sub (x y : PV α) : PV α := add x (neg y)

/-- IEEE multiplication: zero times an infinity is NaN; NaN propagates. -/
def mul : PV α → PV α → PV α
  | nan, _ => nan
  | _, nan => nan
  | fin a, fin b => fin (a * b)
  | fin a, pinf => if a > 0 then pinf else if a < 0 then ninf else nan
  | fin a, ninf => if a > 0 then ninf else if a < 0 then pinf else nan
  | pinf, fin b => if b > 0 then pinf else if b < 0 then ninf else nan
  | ninf, fin b => if b > 0 then ninf else if b < 0 then pinf else nan
  | pinf, pinf => pinf
  | pinf, ninf => ninf
  | ninf, pinf => ninf
  | ninf, ninf => pinf

/-- IEEE division: a nonzero finite value divided by zero is a signed
infinity (the numpy zero is the positive zero), 0/0 is NaN, inf/inf is NaN. -/
def div : PV α → PV α → PV α
  | nan, _ => nan
  | _, nan => nan
  | fin a, fin b =>
      if b = 0 then (if a = 0 then nan else if a > 0 then pinf else ninf)
      else fin (a / b)
  | fin _, pinf => fin 0
  | fin _, ninf => fin 0
  | pinf, fin b => if b ≥ 0 then pinf else ninf
  | ninf, fin b => if b ≥ 0 then ninf else pinf
  | pinf, pinf => nan
  | pinf, ninf => nan
  | ninf, pinf => nan
  | ninf, ninf => nan

/-- Absolute value; the absolute value of NaN is NaN. -/
def abs : PV α → PV α
  | fin q => fin |q|
  | pinf => pinf
  | ninf => pinf
  | nan => nan

/-- numpy sign: +1, -1 or 0 for finite values, +-1 for infinities, NaN for NaN. -/
def sign : PV α → PV α
  | fin q => fin (if q > 0 then 1 else if q < 0 then -1 else 0)
  | pinf => fin 1
  | ninf => fin (-1)
  | nan => nan

/-- IEEE strict comparison: any comparison involving NaN is false. -/
def lt : PV α → PV α → Bool
  | fin a, fin b => decide (a < b)
  | fin _, pinf => true
  | ninf, fin _ => true
  | ninf, pinf => true
  | _, _ => false

/-- pandas fillna: replace NaN by the given default. -/
def fillna (d : α) : PV α → PV α
  | nan => fin d
  | x => x

/-- pandas clip(lo, hi): clamp finite values into the interval, send the
infinities to the respective bound, keep NaN. -/
def clip (lo hi : α) : PV α → PV α
  | fin q => fin (min (max q lo) hi)
  | pinf => fin hi
  | ninf => fin lo
  | nan => nan

/-- Binary maximum of two non-NaN-semantics values; NaN propagates (the
callers below only feed it NaN-free values). -/
def max2 : PV α → PV α → PV α
  | nan, _ => nan
  | _, nan => nan
  | pinf, _ => pinf
  | _, pinf => pinf
  | ninf, y => y
  | x, ninf => x
  | fin a, fin b => fin (max a b)

/-- Binary minimum, same conventions as max2. -/
def min2 : PV α → PV α → PV α
  | nan, _ => nan
  | _, nan => nan
  | ninf, _ => ninf
  | _, ninf => ninf
  | pinf, y => y
  | x, pinf => x
  | fin a, fin b => fin (min a b)

/-- Apply a square-root-like function: NaN for negative finite arguments
(numpy sqrt of a negative number), +inf maps to +inf, -inf and NaN to NaN. -/
def sqrtApply (sq : α → α) : PV α → PV α
  | fin q => if q < 0 then nan else fin (sq q)
  | pinf => pinf
  | ninf => nan
  | nan => nan

/-- pandas sum with skipna=True: NaN entries are dropped, an all-NaN (or
empty) list sums to 0, exactly as pandas DataFrame.sum(axis=1). -/
def sumSkipNa (l : List (PV α)) : PV α :=
  (l.filter (fun v => v ≠ nan)).foldl add (fin 0)

/-- pandas mean with skipna=True: NaN entries are dropped; if nothing is
left the mean is NaN. -/
def meanSkipNa (l : List (PV α)) : PV α :=
  let vs := l.filter (fun v => v ≠ nan)
  if vs.length = 0 then nan
  else div (vs.foldl add (fin 0)) (fin (vs.length : α))

/-- pandas min with skipna=True: NaN entries are dropped; all-NaN gives NaN. -/
def minSkipNa (l : List (PV α)) : PV α :=
  let vs := l.filter (fun v => v ≠ nan)
  match vs with
  | [] => nan
  | v :: rest => rest.foldl min2 v

/-- pandas Series.std (ddof = 1) with skipna=True: drop NaN entries; with at
most one observation the result is NaN, otherwise the square root of the
sample variance.  The square root is supplied as the parameter sq. -/
def stdSkipNa (sq : α → α) (l : List (PV α)) : PV α :=
  let vs := l.filter (fun v => v ≠ nan)
  if vs.length ≤ 1 then nan
  else
    let n : α := (vs.length : α)
    let m := div (vs.foldl add (fin 0)) (fin n)
    let ss := (vs.map (fun v => mul (sub v m) (sub v m))).foldl add (fin 0)
    sqrtApply sq (div ss (fin (n - 1)))

/-- Accumulator of pandas cumprod with skipna=True: NaN inputs are skipped
(treated as 1 in the running product); the running product itself can still
become NaN through 0 * inf. -/
def cumprodAcc (f : ℕ → PV α) : ℕ → PV α
  | 0 => if f 0 = nan then fin 1 else f 0
  | n + 1 => if f (n + 1) = nan then cumprodAcc f n
             else mul (cumprodAcc f n) (f (n + 1))

/-- pandas cumprod with skipna=True: cells that are NaN in the input stay
NaN in the output, other cells hold the running product of the non-NaN
inputs seen so far. -/
def cumprod (f : ℕ → PV α) (t : ℕ) : PV α :=
  if f t = nan then nan else cumprodAcc f t

/-- Accumulator of pandas cummax with skipna=True. -/
def cummaxAcc (f : ℕ → PV α) : ℕ → PV α
  | 0 => f 0
  | n + 1 =>
      if f (n + 1) = nan then cummaxAcc f n
      else if cummaxAcc f n = nan then f (n + 1)
      else max2 (cummaxAcc f n) (f (n + 1))

/-- pandas cummax with skipna=True: NaN cells stay NaN, other cells hold
the running maximum of the non-NaN inputs seen so far. -/
def cummax (f : ℕ → PV α) (t : ℕ) : PV α :=
  if f t = nan then nan else cummaxAcc f t

end PV

/-!
Embedding of BacktestEngine.run (src/trading/backtest.py, lines 56-163).

The date index is abstracted to 0, 1, ..., T-1 in ascending order and the
asset columns to 0, 1, ..., A-1; the price and (already aligned) signal
tables become functions from day and asset numbers to field values.  The
input cells themselves are finite (a table of numbers); NaN and the
infinities arise only from the arithmetic of the pipeline, which is where
all the claims live.  sq is the square-root function of the value field
(numpy sqrt) and rpow its real-power function (Python **), both passed in
as parameters because they are irrational-valued on the rationals.
-/

/-- Parameters of BacktestEngine.__init__ (the verbose flag only controls
printing and is omitted). -/
structure BTParams (α : Type) where
  initial_capital : α
  target_volatility : Option α
  risk_free_rate : α
  transaction_costs : α
  slippage : α

section Backtest

variable {α : Type} [LinearOrderedField α]

/-- prices.pct_change().fillna(0): the day-over-day simple return; the
NaN of the first row (and any 0/0 NaN) is replaced by 0, while a division of a
nonzero price change by a zero price stays a signed infinity. -/
def returns (prices : ℕ → ℕ → α) (t a : ℕ) : PV α :=
  PV.fillna 0 (if t = 0 then PV.nan
    else PV.div (PV.fin (prices t a - prices (t - 1) a)) (PV.fin (prices (t - 1) a)))

/-- signals.shift(1).fillna(0): the signal of the previous day sizes the
position of the day; day 0 has no previous day and gets position 0. -/
def raw_positions (sig : ℕ → ℕ → α) (t a : ℕ) : α :=
  if t = 0 then 0 else sig (t - 1) a

/-- raw_positions.diff().abs(): day-over-day position turnover; the diff of
the first row is NaN. -/
def position_changes (sig : ℕ → ℕ → α) (t a : ℕ) : PV α :=
  if t = 0 then PV.nan
  else PV.fin |raw_positions sig t a - raw_positions sig (t - 1) a|

/-- costs = (transaction_costs + slippage) * position_changes. -/
def costs (p : BTParams α) (sig : ℕ → ℕ → α) (t a : ℕ) : PV α :=
  PV.mul (PV.fin (p.transaction_costs + p.slippage)) (position_changes sig t a)

/-- Pre-scaling strategy returns: raw_positions * returns - costs. -/
def strategy_returns_pre (p : BTParams α) (prices sig : ℕ → ℕ → α) (t a : ℕ) : PV α :=
  PV.sub (PV.mul (PV.fin (raw_positions sig t a)) (returns prices t a))
    (costs p sig t a)

/-- strategy_returns.rolling(window=21).std(): the trailing sample standard
deviation (ddof = 1) over the last 21 observations; NaN until 21
observations are available or whenever the window contains a NaN
(min_periods defaults to the window size). -/
def rolling_std_21 (sq : α → α) (x : ℕ → PV α) (t : ℕ) : PV α :=
  if t + 1 < 21 then PV.nan
  else
    let w := (List.range 21).map (fun k => x (t + 1 - 21 + k))
    if (w.filter (fun v => v ≠ PV.nan)).length < 21 then PV.nan
    else
      let m := PV.div (w.foldl PV.add (PV.fin 0)) (PV.fin (21 : α))
      let ss := (w.map (fun v => PV.mul (PV.sub v m) (PV.sub v m))).foldl
        PV.add (PV.fin 0)
      PV.sqrtApply sq (PV.div ss (PV.fin (20 : α)))

/-- rolling_vol = strategy_returns.rolling(21).std() * np.sqrt(252):
the trailing 21-day annualized volatility of the pre-scaling strategy
returns. -/
def rolling_vol (p : BTParams α) (prices sig : ℕ → ℕ → α) (sq : α → α) (t a : ℕ) : PV α :=
  PV.mul (rolling_std_21 sq (fun u => strategy_returns_pre p prices sig u a) t)
    (PV.fin (sq 252))

/-- vol_scale = (target_volatility / rolling_vol).clip(0,2).fillna(1). -/
def vol_scale (p : BTParams α) (prices sig : ℕ → ℕ → α) (sq : α → α) (tv : α) (t a : ℕ) :
    PV α :=
  PV.fillna 1 (PV.clip 0 2 (PV.div (PV.fin tv) (rolling_vol p prices sig sq t a)))

/-- Post-scaling strategy returns: multiplied by vol_scale when a target
volatility is set, unchanged otherwise. -/
def strategy_returns (p : BTParams α) (prices sig : ℕ → ℕ → α) (sq : α → α) (t a : ℕ) :
    PV α :=
  match p.target_volatility with
  | none => strategy_returns_pre p prices sig t a
  | some tv => PV.mul (strategy_returns_pre p prices sig t a)
      (vol_scale p prices sig sq tv t a)

/-- Final positions: the raw (lagged-signal) positions, multiplied by
vol_scale when a target volatility is set. -/
def positions (p : BTParams α) (prices sig : ℕ → ℕ → α) (sq : α → α) (t a : ℕ) : PV α :=
  match p.target_volatility with
  | none => PV.fin (raw_positions sig t a)
  | some tv => PV.mul (PV.fin (raw_positions sig t a))
      (vol_scale p prices sig sq tv t a)

/-- daily_portfolio_return = strategy_returns.mean(axis=1): the equal-weight
mean across assets, with pandas NaN skipping. -/
def daily_portfolio_return (p : BTParams α) (A : ℕ) (prices sig : ℕ → ℕ → α)
    (sq : α → α) (t : ℕ) : PV α :=
  PV.meanSkipNa ((List.range A).map (fun a => strategy_returns p prices sig sq t a))

/-- equity = (1 + daily_portfolio_return).cumprod() * initial_capital. -/
def equity (p : BTParams α) (A : ℕ) (prices sig : ℕ → ℕ → α) (sq : α → α) (t : ℕ) :
    PV α :=
  PV.mul (PV.cumprod (fun u => PV.add (PV.fin 1)
      (daily_portfolio_return p A prices sig sq u)) t)
    (PV.fin p.initial_capital)

/-- total_return = equity.iloc[-1] / initial_capital - 1. -/
def cumulative_return (p : BTParams α) (T A : ℕ) (prices sig : ℕ → ℕ → α)
    (sq : α → α) : PV α :=
  PV.sub (PV.div (equity p A prices sig sq (T - 1)) (PV.fin p.initial_capital))
    (PV.fin 1)

/-- Python ** on a pandas scalar base and a positive real exponent:
finite bases go through the supplied power function, +inf stays +inf. -/
def powPV (rpow : α → α → α) (x : PV α) (e : α) : PV α :=
  match x with
  | PV.fin a => PV.fin (rpow a e)
  | PV.pinf => PV.pinf
  | PV.ninf => PV.pinf
  | PV.nan => PV.nan

/-- annualized_return = (1 + total_return) ** (252 / len(equity)) - 1. -/
def annualized_return (p : BTParams α) (T A : ℕ) (prices sig : ℕ → ℕ → α)
    (sq : α → α) (rpow : α → α → α) : PV α :=
  PV.sub (powPV rpow (PV.add (PV.fin 1) (cumulative_return p T A prices sig sq))
    ((252 : α) / (T : α))) (PV.fin 1)

/-- excess_returns = daily_portfolio_return - risk_free_rate / 252. -/
def excess_returns (p : BTParams α) (A : ℕ) (prices sig : ℕ → ℕ → α)
    (sq : α → α) (t : ℕ) : PV α :=
  PV.sub (daily_portfolio_return p A prices sig sq t)
    (PV.fin (p.risk_free_rate / 252))

/-- sharpe = excess_returns.mean() / excess_returns.std() * np.sqrt(252),
replaced by 0 only when it is NaN (np.isnan); an infinite sharpe passes
the guard untouched.  Embeds backtest.py lines 101-104 (sharpe_ratio). -/
def sharpe (p : BTParams α) (T A : ℕ) (prices sig : ℕ → ℕ → α)
    (sq : α → α) : PV α :=
  let ex := (List.range T).map (excess_returns p A prices sig sq)
  let s := PV.mul (PV.div (PV.meanSkipNa ex) (PV.stdSkipNa sq ex))
    (PV.fin (sq 252))
  if s = PV.nan then PV.fin 0 else s

/-- rolling_max = equity.cummax(); drawdowns = (equity - rolling_max) /
rolling_max; max_drawdown = drawdowns.min(). -/
def max_drawdown (p : BTParams α) (T A : ℕ) (prices sig : ℕ → ℕ → α)
    (sq : α → α) : PV α :=
  let eq := equity p A prices sig sq
  let rolling_max := PV.cummax eq
  PV.minSkipNa ((List.range T).map (fun t =>
    PV.div (PV.sub (eq t) (rolling_max t)) (rolling_max t)))

/-- position_changes.sum(axis=1): the aggregate turnover of the day across
assets, with pandas NaN skipping (the all-NaN first row sums to 0). -/
def total_position_change (A : ℕ) (sig : ℕ → ℕ → α) (t : ℕ) : PV α :=
  PV.sumSkipNa ((List.range A).map (fun a => position_changes sig t a))

/-- trade_dates = position_changes.sum(axis=1).loc[lambda x: x != 0].index. -/
def trade_dates (T A : ℕ) (sig : ℕ → ℕ → α) : List ℕ :=
  (List.range T).filter (fun t => total_position_change A sig t ≠ PV.fin 0)

/-- The trades table: one row per trade date carrying the date, the total
position change of that date and the portfolio equity at that date
(backtest.py lines 111-117). -/
def trades (p : BTParams α) (T A : ℕ) (prices sig : ℕ → ℕ → α) (sq : α → α) :
    List (ℕ × PV α × PV α) :=
  (trade_dates T A sig).map (fun t =>
    (t, total_position_change A sig t, equity p A prices sig sq t))

/-- win_rate = (daily_portfolio_return > 0).sum() /
(daily_portfolio_return != 0).sum(), or 0 when there is no nonzero-return
day.  A NaN daily return compares unequal to 0 in pandas, so it counts in
the denominator but never in the numerator. -/
def win_rate (p : BTParams α) (T A : ℕ) (prices sig : ℕ → ℕ → α)
    (sq : α → α) : α :=
  let winning := ((List.range T).filter (fun t =>
    PV.lt (PV.fin 0) (daily_portfolio_return p A prices sig sq t))).length
  let total := ((List.range T).filter (fun t =>
    daily_portfolio_return p A prices sig sq t ≠ PV.fin 0)).length
  if 0 < total then (winning : α) / (total : α) else 0

/-- per_asset_equity = (1 + strategy_returns).cumprod() *
(initial_capital / numAssets). -/
def per_asset_equity (p : BTParams α) (A : ℕ) (prices sig : ℕ → ℕ → α)
    (sq : α → α) (t a : ℕ) : PV α :=
  PV.mul (PV.cumprod (fun u => PV.add (PV.fin 1)
      (strategy_returns p prices sig sq u a)) t)
    (PV.fin (p.initial_capital / (A : α)))

/-- per_asset_cumulative_return = per_asset_equity.iloc[-1] /
per_asset_equity.iloc[0] - 1. -/
def per_asset_cumulative_return (p : BTParams α) (T A : ℕ)
    (prices sig : ℕ → ℕ → α) (sq : α → α) (a : ℕ) : PV α :=
  PV.sub (PV.div (per_asset_equity p A prices sig sq (T - 1) a)
    (per_asset_equity p A prices sig sq 0 a)) (PV.fin 1)

/-- per_asset_sharpe = (strategy_returns.mean() / strategy_returns.std())
* sqrt(252), with NaN filled by 0 after the multiplication. -/
def per_asset_sharpe (p : BTParams α) (T : ℕ) (prices sig : ℕ → ℕ → α)
    (sq : α → α) (a : ℕ) : PV α :=
  let col := (List.range T).map (fun t => strategy_returns p prices sig sq t a)
  PV.fillna 0 (PV.mul (PV.div (PV.meanSkipNa col) (PV.stdSkipNa sq col))
    (PV.fin (sq 252)))

/-- Per-asset running-peak maximum drawdown of per_asset_equity. -/
def per_asset_max_drawdown (p : BTParams α) (T A : ℕ)
    (prices sig : ℕ → ℕ → α) (sq : α → α) (a : ℕ) : PV α :=
  let eq := fun t => per_asset_equity p A prices sig sq t a
  let rolling_max := PV.cummax eq
  PV.minSkipNa ((List.range T).map (fun t =>
    PV.div (PV.sub (eq t) (rolling_max t)) (rolling_max t)))

/-- per_asset_win_rate = ((strategy_returns > 0).sum() /
(strategy_returns != 0).sum()).fillna(0). -/
def per_asset_win_rate (p : BTParams α) (T : ℕ) (prices sig : ℕ → ℕ → α)
    (sq : α → α) (a : ℕ) : PV α :=
  let winning := ((List.range T).filter (fun t =>
    PV.lt (PV.fin 0) (strategy_returns p prices sig sq t a))).length
  let total := ((List.range T).filter (fun t =>
    strategy_returns p prices sig sq t a ≠ PV.fin 0)).length
  PV.fillna 0 (PV.div (PV.fin (winning : α)) (PV.fin (total : α)))

/-- Gross exposure: positions.abs().sum(axis=1). -/
def gross_exposure (p : BTParams α) (A : ℕ) (prices sig : ℕ → ℕ → α)
    (sq : α → α) (t : ℕ) : PV α :=
  PV.sumSkipNa ((List.range A).map (fun a =>
    PV.abs (positions p prices sig sq t a)))

/-- weights = positions.div(positions.abs().sum(axis=1), axis=0): the
position of each asset divided by the gross exposure of the day. -/
def weights (p : BTParams α) (A : ℕ) (prices sig : ℕ → ℕ → α)
    (sq : α → α) (t a : ℕ) : PV α :=
  PV.div (positions p prices sig sq t a) (gross_exposure p A prices sig sq t)

/-- The BacktestResult record (backtest.py lines 13-32), with dates as day
numbers and tables as day/asset-indexed functions. -/
structure BacktestResult (α : Type) where
  start_date : ℕ
  end_date : ℕ
  total_return : PV α
  annualized_return : PV α
  max_drawdown : PV α
  sharpe : PV α
  trades : List (ℕ × PV α × PV α)
  positions : ℕ → ℕ → PV α
  weights : ℕ → ℕ → PV α
  signals : ℕ → ℕ → α
  win_rate : α
  per_asset_equity : ℕ → ℕ → PV α
  per_asset_cumulative_return : ℕ → PV α
  per_asset_sharpe : ℕ → PV α
  per_asset_max_drawdown : ℕ → PV α
  per_asset_win_rate : ℕ → PV α
  equity : ℕ → PV α

/-- BacktestEngine.run on an aligned pair of tables: the date index is
0..T-1 in ascending order (sort_index in the code) and sig is the signal
table after reindex/ffill/fillna(0) (identity for an already aligned
all-numbers table).  Assembles the BacktestResult exactly as lines
145-163 of backtest.py. -/
def run (p : BTParams α) (T A : ℕ) (prices sig : ℕ → ℕ → α)
    (sq : α → α) (rpow : α → α → α) : BacktestResult α where
  start_date := 0
  end_date := T - 1
  total_return := cumulative_return p T A prices sig sq
  annualized_return := annualized_return p T A prices sig sq rpow
  max_drawdown := max_drawdown p T A prices sig sq
  sharpe := sharpe p T A prices sig sq
  trades := trades p T A prices sig sq
  positions := positions p prices sig sq
  weights := weights p A prices sig sq
  signals := sig
  win_rate := win_rate p T A prices sig sq
  per_asset_equity := fun t a => per_asset_equity p A prices sig sq t a
  per_asset_cumulative_return := per_asset_cumulative_return p T A prices sig sq
  per_asset_sharpe := per_asset_sharpe p T prices sig sq
  per_asset_max_drawdown := per_asset_max_drawdown p T A prices sig sq
  per_asset_win_rate := per_asset_win_rate p T prices sig sq
  equity := equity p A prices sig sq

end Backtest

/-!
Label-aware front end of BacktestEngine.run (backtest.py lines 65-69).

The only precondition the code enforces is prices.shape != signals.shape;
the date labels and column labels themselves are never compared.  A
labelled table is a date-label list, a column-label list and a row-major
value matrix.  run sorts the price rows by date label (sort_index) and
aligns the signal rows to the sorted price labels by exact label lookup,
forward-filling rows whose label is absent and zero-filling before the
first present label (reindex().ffill().fillna(0)).
-/

section Checked

variable {α : Type} [LinearOrderedField α]

end Checked

/-!
Embedding of src/analytics/signals.py: MomentumSignal.generate (lines
44-55) and SignalCombiner.generate (lines 110-127).  A feature table is a
row count together with named columns of pandas scalars.
-/

/-- A feature DataFrame: its number of rows and its named columns. -/
structure Feat (α : Type) where
  nrows : ℕ
  cols : List (String × List (PV α))

/-- Membership of a name in df.columns. -/
def Feat.hasCol (df : Feat α) (name : String) : Bool :=
  (df.cols.map Prod.fst).contains name

/-- Column access df[name] (defaults to the empty column; the generators
only read columns they have checked for). -/
def Feat.col (df : Feat α) (name : String) : List (PV α) :=
  (List.lookup name df.cols).getD []

section Signals

variable {α : Type} [LinearOrderedField α]

/-- Series.replace(0, nan): finite zeros become NaN. -/
def replaceZeroNan (v : PV α) : PV α :=
  if v = PV.fin 0 then PV.nan else v

/-- MomentumSignal.generate (signals.py lines 44-55).  Faithful to the
source, including line 49: the membership test is on the twelve-character
literal column name sma_{self.window} (the f prefix is missing in the
source), so the sma_21 column is what gets used for every window unless a
column with that literal name exists; only the assigned fallback name
interpolates the window.  The signal is sign(close - sma) with zeros
routed through replace(0, nan).fillna(0). -/
def momentumGenerate (window : ℕ) (df : Feat α) : Except String (List (PV α)) :=
  if ¬ (df.hasCol "sma_21" ∧ df.hasCol "close") then
    .error "DataFrame must contain sma_21 and close columns"
  else
    let smaCol := if df.hasCol "sma_\x7bself.window\x7d" then
        "sma_" ++ toString window
      else "sma_21"
    let sma := df.col smaCol
    let close := df.col "close"
    .ok (List.zipWith (fun c s =>
      PV.fillna 0 (replaceZeroNan (PV.sign (PV.sub c s)))) close sma)

/-- A signal generator: the generate capability of SignalBase. -/
abbrev Gen (α : Type) : Type := Feat α → Except String (List (PV α))

/-- Weight lookup self.weights.get(name, 1.0): with no weights dict every
generator weighs 1.0, otherwise the dict value with default 1.0. -/
def weightOf (wts : Option (List (String × α))) (n : String) : α :=
  match wts with
  | none => 1
  | some l => (List.lookup n l).getD 1

/-- Run every member generator in order, propagating the first error
(SignalCombiner.generate lines 114-117 collects results[name]). -/
def collectSigs (df : Feat α) : List (String × Gen α) →
    Except String (List (String × List (PV α)))
  | [] => .ok []
  | (n, g) :: rest => do
      let s ← g df
      let r ← collectSigs df rest
      .ok ((n, s) :: r)

/-- The weight-normalized combined score at date t:
pd.DataFrame(results).sum(axis=1) / total_weight, where
results[name] = sig * weight and total_weight sums weightOf over the
member names (lines 117-121). -/
def combinedScore (wts : Option (List (String × α)))
    (results : List (String × List (PV α))) (t : ℕ) : PV α :=
  let total : α := (results.map (fun r => weightOf wts r.1)).sum
  PV.div (PV.sumSkipNa (results.map (fun r =>
    PV.mul (r.2.getD t PV.nan) (PV.fin (weightOf wts r.1))))) (PV.fin total)

/-- SignalCombiner.generate (lines 110-127): run the members, form the
weight-normalized mean score, then discretize with the 0.33 thresholds
into a series of minus-one, zero and plus-one values, one per frame row. -/
def combinerGenerate (gens : List (String × Gen α))
    (wts : Option (List (String × α))) (df : Feat α) :
    Except String (List (PV α)) := do
  let results ← collectSigs df gens
  .ok ((List.range df.nrows).map (fun t =>
    let c := combinedScore wts results t
    if PV.lt (PV.fin ((33 : α) / 100)) c then PV.fin 1
    else if PV.lt c (PV.fin (-((33 : α) / 100))) then PV.fin (-1)
    else PV.fin 0))

end Signals

/-!
Embedding of src/analytics/features.py (FeatureEngine.compute_all and its
helpers), together with a small object heap.  Python DataFrames are
mutable objects passed by reference: df.copy() allocates a fresh object
and column assignment mutates an object in place.  A heap is a list of
frames addressed by allocation index, df.copy() appends a copy at a fresh
index, and every helper of compute_all mutates the frame at a given index.
np.log and the square root are passed in as function parameters.
-/

/-- A raw/feature frame at heap level: named columns of pandas scalars. -/
abbrev Frame (α : Type) : Type := List (String × List (PV α))

/-- Column lookup with an explicit fallback, as in df.get(name, fallback). -/
def Frame.colD (fr : Frame α) (name : String) (dflt : List (PV α)) :
    List (PV α) :=
  (List.lookup name fr).getD dflt

/-- Column access df[name]. -/
def Frame.col (fr : Frame α) (name : String) : List (PV α) :=
  fr.colD name []

/-- Membership in df.columns. -/
def Frame.hasCol (fr : Frame α) (name : String) : Bool :=
  (fr.map Prod.fst).contains name

/-- Column assignment df[name] = col: overwrite an existing column of that
name, otherwise append a new one. -/
def Frame.setCol (fr : Frame α) (name : String) (col : List (PV α)) :
    Frame α :=
  if fr.hasCol name then
    fr.map (fun e => if e.1 = name then (name, col) else e)
  else fr ++ [(name, col)]

section SeriesOps

variable {α : Type} [LinearOrderedField α]

/-- Series.shift(k): k leading NaN cells, then the original values. -/
def lShift (k : ℕ) (l : List (PV α)) : List (PV α) :=
  (List.range l.length).map (fun i =>
    if i < k then PV.nan else l.getD (i - k) PV.nan)

/-- Series.pct_change(k): value over the value k steps back, minus one;
NaN while no such value exists. -/
def lPctChange (k : ℕ) (l : List (PV α)) : List (PV α) :=
  (List.range l.length).map (fun i =>
    if i < k then PV.nan
    else PV.sub (PV.div (l.getD i PV.nan) (l.getD (i - k) PV.nan)) (PV.fin 1))

/-- Series.diff(): difference with the previous value, NaN first. -/
def lDiff (l : List (PV α)) : List (PV α) :=
  (List.range l.length).map (fun i =>
    if i = 0 then PV.nan
    else PV.sub (l.getD i PV.nan) (l.getD (i - 1) PV.nan))

/-- np.log on a pandas scalar: the supplied log on positive finite values,
-inf at zero, NaN on negative values and on -inf. -/
def pvLog (logF : α → α) : PV α → PV α
  | PV.fin q => if q > 0 then PV.fin (logF q) else if q = 0 then PV.ninf else PV.nan
  | PV.pinf => PV.pinf
  | PV.ninf => PV.nan
  | PV.nan => PV.nan

/-- Series.cumprod() on a list, pandas skipna semantics. -/
def lCumprod (l : List (PV α)) : List (PV α) :=
  (List.range l.length).map (PV.cumprod (fun i => l.getD i PV.nan))

/-- The trailing window of width w ending at position i. -/
def windowAt (w : ℕ) (l : List (PV α)) (i : ℕ) : List (PV α) :=
  (List.range w).map (fun k => l.getD (i + 1 - w + k) PV.nan)

/-- Series.rolling(w).mean(): NaN until w observations are available or
when the window contains a NaN (min_periods defaults to w). -/
def lRollingMean (w : ℕ) (l : List (PV α)) : List (PV α) :=
  (List.range l.length).map (fun i =>
    if i + 1 < w then PV.nan
    else
      let win := windowAt w l i
      if (win.filter (fun v => v ≠ PV.nan)).length < w then PV.nan
      else PV.div (win.foldl PV.add (PV.fin 0)) (PV.fin (w : α)))

/-- Series.rolling(w).std(ddof): rolling standard deviation, NaN under the
same window conditions as the rolling mean. -/
def lRollingStd (sq : α → α) (w ddof : ℕ) (l : List (PV α)) : List (PV α) :=
  (List.range l.length).map (fun i =>
    if i + 1 < w then PV.nan
    else
      let win := windowAt w l i
      if (win.filter (fun v => v ≠ PV.nan)).length < w then PV.nan
      else
        let m := PV.div (win.foldl PV.add (PV.fin 0)) (PV.fin (w : α))
        let ss := (win.map (fun v => PV.mul (PV.sub v m) (PV.sub v m))).foldl
          PV.add (PV.fin 0)
        PV.sqrtApply sq (PV.div ss (PV.fin ((w : α) - (ddof : α)))))

/-- Recursion of Series.ewm(adjust=False).mean(): y0 = x0 and
y = (1 - a) * yprev + a * x, with NaN inputs carrying the previous mean
forward (and NaN outputs before the first observation). -/
def lEwmGo (a : α) (prev : Option (PV α)) : List (PV α) → List (PV α)
  | [] => []
  | x :: xs =>
      match prev with
      | none =>
          if x = PV.nan then PV.nan :: lEwmGo a none xs
          else x :: lEwmGo a (some x) xs
      | some y =>
          if x = PV.nan then y :: lEwmGo a (some y) xs
          else
            let z := PV.add (PV.mul (PV.fin (1 - a)) y) (PV.mul (PV.fin a) x)
            z :: lEwmGo a (some z) xs

/-- Series.ewm(alpha=a, adjust=False).mean(). -/
def lEwm (a : α) (l : List (PV α)) : List (PV α) := lEwmGo a none l

/-- pandas rowwise max with skipna (concat(...).max(axis=1)). -/
def pvMaxSkipNa (l : List (PV α)) : PV α :=
  let vs := l.filter (fun v => v ≠ PV.nan)
  match vs with
  | [] => PV.nan
  | v :: rest => rest.foldl PV.max2 v

end SeriesOps

section Features

variable {α : Type} [LinearOrderedField α]

/-- FeatureEngine._add_returns (features.py lines 58-70). -/
def addReturns (logF : α → α) (fr : Frame α) : Frame α :=
  let close := fr.col "close"
  let fr := fr.setCol "return_1d" (lPctChange 1 close)
  let fr := fr.setCol "return_5d" (lPctChange 5 close)
  let fr := fr.setCol "return_21d" (lPctChange 21 close)
  let fr := fr.setCol "log_return_1d"
    ((List.zipWith PV.div close (lShift 1 close)).map (pvLog logF))
  let r1 := (fr.col "return_1d").map (PV.fillna 0)
  fr.setCol "cumulative_return"
    ((lCumprod (r1.map (PV.add (PV.fin 1)))).map (fun v => PV.sub v (PV.fin 1)))

/-- FeatureEngine._add_volatility (lines 72-82): rolling population
standard deviations of the 1-day log return, annualized by sqrt(252). -/
def addVolatility (sq : α → α) (fr : Frame α) : Frame α :=
  let rets := fr.col "log_return_1d"
  let ann := fun v => PV.mul v (PV.fin (sq 252))
  let fr := fr.setCol "volatility_21d" ((lRollingStd sq 21 0 rets).map ann)
  let fr := fr.setCol "volatility_63d" ((lRollingStd sq 63 0 rets).map ann)
  fr.setCol "realized_vol_5d" ((lRollingStd sq 5 0 rets).map ann)

/-- FeatureEngine._add_moving_averages (lines 84-107). -/
def addMovingAverages (fr : Frame α) : Frame α :=
  let close := fr.col "close"
  let fr := fr.setCol "sma_10" (lRollingMean 10 close)
  let fr := fr.setCol "sma_21" (lRollingMean 21 close)
  let fr := fr.setCol "sma_50" (lRollingMean 50 close)
  let fr := fr.setCol "sma_200" (lRollingMean 200 close)
  let fr := fr.setCol "ema_12" (lEwm (2 / 13) close)
  let fr := fr.setCol "ema_26" (lEwm (2 / 27) close)
  let ratioTo := fun c => List.zipWith (fun x y =>
    PV.sub (PV.div x y) (PV.fin 1)) close (fr.col c)
  let fr := fr.setCol "price_to_sma_21" (ratioTo "sma_21")
  let fr := fr.setCol "price_to_sma_50" (ratioTo "sma_50")
  let fr := fr.setCol "price_to_sma_200" (ratioTo "sma_200")
  let gt01 := fun c1 c2 => List.zipWith (fun x y =>
    PV.fin (if PV.lt y x then (1 : α) else 0)) (fr.col c1) (fr.col c2)
  let fr := fr.setCol "sma_10_above_50" (gt01 "sma_10" "sma_50")
  fr.setCol "sma_50_above_200" (gt01 "sma_50" "sma_200")

/-- FeatureEngine._calculate_rsi (lines 140-153): exponentially smoothed
average gain over average loss, the latter stabilized by 1e-10. -/
def calcRsi (close : List (PV α)) (w : ℕ) : List (PV α) :=
  let delta := lDiff close
  let gain := delta.map (fun v => if PV.lt (PV.fin 0) v then v else PV.fin 0)
  let loss := delta.map (fun v => if PV.lt v (PV.fin 0) then PV.neg v else PV.fin 0)
  let avg_gain := lEwm (1 / (w : α)) gain
  let avg_loss := lEwm (1 / (w : α)) loss
  let eps : α := 1 / 10000000000
  let rs := List.zipWith (fun g l => PV.div g (PV.add l (PV.fin eps)))
    avg_gain avg_loss
  rs.map (fun r => PV.sub (PV.fin 100)
    (PV.div (PV.fin 100) (PV.add (PV.fin 1) r)))

/-- FeatureEngine._calculate_atr (lines 155-172): the smoothed average of
the true range max(high - low, abs(high - prevClose), abs(low - prevClose)). -/
def calcAtr (high low close : List (PV α)) (w : ℕ) : List (PV α) :=
  let prev_close := lShift 1 close
  let tr1 := List.zipWith PV.sub high low
  let tr2 := (List.zipWith PV.sub high prev_close).map PV.abs
  let tr3 := (List.zipWith PV.sub low prev_close).map PV.abs
  let tr := (List.range close.length).map (fun i =>
    pvMaxSkipNa [tr1.getD i PV.nan, tr2.getD i PV.nan, tr3.getD i PV.nan])
  lEwm (1 / (w : α)) tr

/-- FeatureEngine._add_technical_indicators (lines 109-138). -/
def addTechnicalIndicators (sq : α → α) (fr : Frame α) : Frame α :=
  let close := fr.col "close"
  let high := fr.colD "high" close
  let low := fr.colD "low" close
  let fr := fr.setCol "rsi_14" (calcRsi close 14)
  let macd_line := List.zipWith PV.sub (fr.col "ema_12") (fr.col "ema_26")
  let signal_line := lEwm (2 / 10) macd_line
  let fr := fr.setCol "macd" macd_line
  let fr := fr.setCol "macd_signal" signal_line
  let fr := fr.setCol "macd_histogram"
    (List.zipWith PV.sub macd_line signal_line)
  let sma_20 := lRollingMean 20 close
  let std_20 := lRollingStd sq 20 0 close
  let fr := fr.setCol "bb_upper" (List.zipWith (fun m s =>
    PV.add m (PV.mul (PV.fin 2) s)) sma_20 std_20)
  let fr := fr.setCol "bb_lower" (List.zipWith (fun m s =>
    PV.sub m (PV.mul (PV.fin 2) s)) sma_20 std_20)
  let fr := fr.setCol "bb_position" ((List.range close.length).map (fun i =>
    PV.div (PV.sub (close.getD i PV.nan) ((fr.col "bb_lower").getD i PV.nan))
      (PV.sub ((fr.col "bb_upper").getD i PV.nan)
        ((fr.col "bb_lower").getD i PV.nan))))
  let fr := fr.setCol "atr_14" (calcAtr high low close 14)
  let mom := fun (k : ℕ) => List.zipWith (fun c s =>
    PV.sub (PV.div c s) (PV.fin 1)) close (lShift k close)
  let fr := fr.setCol "momentum_10" (mom 10)
  fr.setCol "momentum_21" (mom 21)

/-- A heap of DataFrame objects addressed by allocation index. -/
abbrev Heap (α : Type) : Type := List (Frame α)

/-- Dereference a heap index. -/
def heapGet (h : Heap α) (r : ℕ) : Frame α := h.getD r []

/-- In-place mutation of the object at a heap index. -/
def heapSet (h : Heap α) (r : ℕ) (fr : Frame α) : Heap α := h.set r fr

/-- FeatureEngine.compute_all (features.py lines 25-56) at heap level:
result = df.copy() allocates a fresh object at index h.length, the close
check raises on the copy, and the four stages mutate the copy in place;
the pair returned is the new heap and the index of the result object. -/
def compute_all (logF sq : α → α) (h : Heap α) (r : ℕ) (include_ta : Bool) :
    Except String (Heap α × ℕ) :=
  let h1 := h ++ [heapGet h r]
  let r1 := h.length
  if ¬ (heapGet h1 r1).hasCol "close" then
    .error "DataFrame must contain close column"
  else
    let h2 := heapSet h1 r1 (addReturns logF (heapGet h1 r1))
    let h3 := heapSet h2 r1 (addVolatility sq (heapGet h2 r1))
    let h4 := heapSet h3 r1 (addMovingAverages (heapGet h3 r1))
    let h5 := if include_ta then
        heapSet h4 r1 (addTechnicalIndicators sq (heapGet h4 r1))
      else h4
    .ok (h5, r1)

end Features

/-!
Concrete fixtures used by witnesses and counterexamples: the default
engine parameters over the rationals, tiny price/signal tables, a tiny
feature frame and a constant signal generator.  The identity function
stands in for the square root and the power function at the rationals;
the runs below either never reach them or only need sq 0 = 0 and
0 < sq 252, which the identity satisfies.
-/

/-- BacktestEngine() defaults: capital 100000, no target volatility,
risk-free 5 percent, costs and slippage 0.001 each. -/
def exParams : BTParams ℚ := ⟨100000, none, 5/100, 1/1000, 1/1000⟩

/-- Defaults with volatility targeting at 10 percent. -/
def exParamsVT : BTParams ℚ := ⟨100000, some (1/10), 5/100, 1/1000, 1/1000⟩

/-- A single constant-price asset. -/
def constPrices : ℕ → ℕ → ℚ := fun _ _ => 1

/-- A single asset with price t + 1 on day t. -/
def risingPrices : ℕ → ℕ → ℚ := fun t _ => (t : ℚ) + 1

/-- The all-zero signal matrix. -/
def zeroSig : ℕ → ℕ → ℚ := fun _ _ => 0

/-- A signal that is +1 on day 1 and 0 elsewhere. -/
def sigA : ℕ → ℕ → ℚ := fun t _ => if t = 1 then 1 else 0

/-- A signal that is -1 on day 1 and 0 elsewhere: it differs from sigA
only on day 1. -/
def sigB : ℕ → ℕ → ℚ := fun t _ => if t = 1 then -1 else 0

/-- Identity stand-in for the square root over the rationals. -/
def qsq : ℚ → ℚ := fun q => q

/-- First-argument stand-in for the power function over the rationals. -/
def qpow : ℚ → ℚ → ℚ := fun a _ => a

/-- One-row feature frame with close 10, a 10-day SMA of 5 and a 21-day
SMA of 20: the sign of close minus the 10-day SMA is +1, the sign of
close minus the 21-day SMA is -1. -/
def exFeat : Feat ℚ :=
  ⟨1, [("close", [PV.fin 10]), ("sma_10", [PV.fin 5]), ("sma_21", [PV.fin 20])]⟩

/-- A generator that emits a constant signal, one value per frame row. -/
def exGen (v : PV ℚ) : Gen ℚ := fun df => .ok (List.replicate df.nrows v)

/-- An empty two-row feature frame for combiner witnesses. -/
def exFeat2 : Feat ℚ := ⟨2, []⟩

/-- A one-object heap holding a one-row close-only price frame. -/
def exHeap : Heap ℚ := [[("close", [PV.fin 1])]]

/-!
General lemmas about the pandas value model and the pipeline, shared by
the claim theorems below.
-/

section Lemmas

variable {α : Type} [LinearOrderedField α]

theorem PV.add_nan (x : PV α) : PV.add x PV.nan = PV.nan := by
  cases x <;> rfl

theorem PV.nan_add (x : PV α) : PV.add PV.nan x = PV.nan := by
  cases x <;> rfl

theorem PV.sub_nan (x : PV α) : PV.sub x PV.nan = PV.nan := by
  cases x <;> rfl

theorem PV.mul_nan (x : PV α) : PV.mul x PV.nan = PV.nan := by
  cases x <;> rfl

theorem PV.nan_mul (x : PV α) : PV.mul PV.nan x = PV.nan := by
  cases x <;> rfl

theorem PV.fin_mul_fin (a b : α) :
    PV.mul (PV.fin a) (PV.fin b) = PV.fin (a * b) := rfl

theorem PV.fin_sub_fin (a b : α) :
    PV.sub (PV.fin a) (PV.fin b) = PV.fin (a - b) := by
  simp [PV.sub, PV.add, PV.neg, sub_eq_add_neg]

theorem PV.fin_add_fin (a b : α) :
    PV.add (PV.fin a) (PV.fin b) = PV.fin (a + b) := rfl

/-- Folding IEEE addition over a list of finite values adds them exactly. -/
theorem foldl_add_fin (g : ℕ → α) (l : List ℕ) (s : α) :
    ((l.map (fun a => PV.fin (g a))).foldl PV.add (PV.fin s)) =
      PV.fin (s + (l.map g).sum) := by
  induction l generalizing s with
  | nil => simp
  | cons x xs ih =>
      simp only [List.map_cons, List.foldl_cons, PV.fin_add_fin, ih,
        List.sum_cons, add_assoc]

/-- A skip-NaN sum of finite values is the exact finite sum. -/
theorem sumSkipNa_map_fin (g : ℕ → α) (l : List ℕ) :
    PV.sumSkipNa (l.map (fun a => PV.fin (g a))) = PV.fin ((l.map g).sum) := by
  unfold PV.sumSkipNa
  rw [List.filter_eq_self.mpr (by intro v hv; simp at hv; obtain ⟨a, _, rfl⟩ := hv; simp)]
  simpa using foldl_add_fin g l 0

/-- The skip-NaN sum of an all-NaN list is 0 (pandas sum semantics). -/
theorem sumSkipNa_all_nan (l : List (PV α)) (h : ∀ v ∈ l, v = PV.nan) :
    PV.sumSkipNa l = PV.fin 0 := by
  unfold PV.sumSkipNa
  rw [List.filter_eq_nil_iff.mpr (by intro v hv; simp [h v hv])]
  rfl

/-- The skip-NaN mean of an all-NaN list is NaN (pandas mean semantics). -/
theorem meanSkipNa_all_nan (l : List (PV α)) (h : ∀ v ∈ l, v = PV.nan) :
    PV.meanSkipNa l = PV.nan := by
  unfold PV.meanSkipNa
  rw [List.filter_eq_nil_iff.mpr (by intro v hv; simp [h v hv])]
  rfl

/-- Folding IEEE addition of all-zero values keeps the accumulator. -/
theorem foldl_add_all_zero (l : List (PV α)) (s : α)
    (h : ∀ v ∈ l, v = PV.fin 0) : l.foldl PV.add (PV.fin s) = PV.fin s := by
  induction l generalizing s with
  | nil => rfl
  | cons x xs ih =>
      have hx : x = PV.fin 0 := h x (by simp)
      subst hx
      simp only [List.foldl_cons, PV.fin_add_fin, add_zero]
      exact ih s (fun v hv => h v (by simp [hv]))

/-- The skip-NaN mean of a nonempty all-zero list is 0. -/
theorem meanSkipNa_zero (l : List (PV α)) (hne : l ≠ [])
    (h : ∀ v ∈ l, v = PV.fin 0) : PV.meanSkipNa l = PV.fin 0 := by
  unfold PV.meanSkipNa
  rw [List.filter_eq_self.mpr (by intro v hv; simp [h v hv])]
  have hlen : l.length ≠ 0 := by simpa using hne
  simp only [hlen, if_false, foldl_add_all_zero l 0 h]
  have hl0 : ((l.length : α)) ≠ 0 := by
    exact_mod_cast hlen
  simp [PV.div, hl0]

/-- The vol-scale shape clip-then-fillna always produces a finite value in
the closed interval from 0 to 2, whatever pandas value it is fed. -/
theorem fillna_clip_mem (x : PV α) :
    ∃ q : α, PV.fillna 1 (PV.clip 0 2 x) = PV.fin q ∧ 0 ≤ q ∧ q ≤ 2 := by
  cases x with
  | fin q =>
      exact ⟨min (max q 0) 2, rfl,
        le_min (le_max_right _ _) (by norm_num), min_le_right _ _⟩
  | pinf => exact ⟨2, rfl, by norm_num, le_refl _⟩
  | ninf => exact ⟨0, rfl, le_refl _, by norm_num⟩
  | nan => exact ⟨1, rfl, by norm_num, by norm_num⟩

/-- vol_scale is always a finite scalar between 0 and 2. -/
theorem vol_scale_mem (p : BTParams α) (prices sig : ℕ → ℕ → α)
    (sq : α → α) (tv : α) (t a : ℕ) :
    ∃ q : α, vol_scale p prices sig sq tv t a = PV.fin q ∧ 0 ≤ q ∧ q ≤ 2 :=
  fillna_clip_mem _

/-- positions are always finite scalars. -/
theorem positions_fin (p : BTParams α) (prices sig : ℕ → ℕ → α)
    (sq : α → α) (t a : ℕ) :
    ∃ q : α, positions p prices sig sq t a = PV.fin q := by
  cases hp : p.target_volatility with
  | none => exact ⟨raw_positions sig t a, by simp [positions, hp]⟩
  | some tv =>
      obtain ⟨q, hq, _, _⟩ := vol_scale_mem p prices sig sq tv t a
      exact ⟨raw_positions sig t a * q,
        by simp [positions, hp, hq, PV.fin_mul_fin]⟩

/-- A zero raw position stays a zero position after volatility scaling. -/
theorem positions_of_raw_zero (p : BTParams α) (prices sig : ℕ → ℕ → α)
    (sq : α → α) (t a : ℕ) (h : raw_positions sig t a = 0) :
    positions p prices sig sq t a = PV.fin 0 := by
  cases hp : p.target_volatility with
  | none => simp [positions, hp, h]
  | some tv =>
      obtain ⟨q, hq, _, _⟩ := vol_scale_mem p prices sig sq tv t a
      simp [positions, hp, h, hq, PV.fin_mul_fin]

/-- In an ordered field, a zero sum of nonnegative values forces every
summand to zero. -/
theorem sum_nonneg_all_zero (l : List α) (h0 : ∀ x ∈ l, 0 ≤ x)
    (hs : l.sum = 0) : ∀ x ∈ l, x = 0 := by
  induction l with
  | nil => intro x hx; simp at hx
  | cons y ys ih =>
      intro x hx
      have hy : 0 ≤ y := h0 y (by simp)
      have hys : 0 ≤ ys.sum := List.sum_nonneg (fun z hz => h0 z (by simp [hz]))
      have hsum : y + ys.sum = 0 := by simpa using hs
      have hy0 : y = 0 := by linarith
      have hys0 : ys.sum = 0 := by linarith
      rcases List.mem_cons.mp hx with hx | hx
      · rw [hx]; exact hy0
      · exact ih (fun z hz => h0 z (by simp [hz])) hys0 x hx

omit [LinearOrderedField α] in
/-- Dereferencing an index below the old length after an append-allocation
reads the old object. -/
theorem heapGet_append (h : Heap α) (fr : Frame α) (r : ℕ)
    (hr : r < h.length) : heapGet (h ++ [fr]) r = heapGet h r :=
  List.getD_append _ _ _ _ hr

omit [LinearOrderedField α] in
/-- Mutating one heap object leaves every other object unchanged. -/
theorem heapGet_set_ne (h : Heap α) (i j : ℕ) (fr : Frame α) (hne : i ≠ j) :
    heapGet (heapSet h i fr) j = heapGet h j := by
  unfold heapGet heapSet
  rw [List.getD_eq_getD_get?, List.getD_eq_getD_get?, List.get?_set_ne _ _ hne]

/-- Raw positions at a day up to t only read signals strictly before t. -/
theorem raw_positions_congr {s s' : ℕ → ℕ → α} {t : ℕ}
    (H : ∀ u a, u < t → s u a = s' u a) {u : ℕ} (hu : u ≤ t) (a : ℕ) :
    raw_positions s u a = raw_positions s' u a := by
  unfold raw_positions
  by_cases h0 : u = 0
  · simp [h0]
  · simp only [h0, if_false]
    exact H (u - 1) a (by omega)

/-- Position changes at a day up to t only read signals strictly before t. -/
theorem position_changes_congr {s s' : ℕ → ℕ → α} {t : ℕ}
    (H : ∀ u a, u < t → s u a = s' u a) {u : ℕ} (hu : u ≤ t) (a : ℕ) :
    position_changes s u a = position_changes s' u a := by
  unfold position_changes
  by_cases h0 : u = 0
  · simp [h0]
  · simp only [h0, if_false]
    rw [raw_positions_congr H hu, raw_positions_congr H (by omega : u - 1 ≤ t)]

/-- Costs at a day up to t only read signals strictly before t. -/
theorem costs_congr (p : BTParams α) {s s' : ℕ → ℕ → α} {t : ℕ}
    (H : ∀ u a, u < t → s u a = s' u a) {u : ℕ} (hu : u ≤ t) (a : ℕ) :
    costs p s u a = costs p s' u a := by
  unfold costs
  rw [position_changes_congr H hu]

/-- Pre-scaling strategy returns at a day up to t only read signals
strictly before t. -/
theorem strategy_returns_pre_congr (p : BTParams α) (prices : ℕ → ℕ → α)
    {s s' : ℕ → ℕ → α} {t : ℕ}
    (H : ∀ u a, u < t → s u a = s' u a) {u : ℕ} (hu : u ≤ t) (a : ℕ) :
    strategy_returns_pre p prices s u a = strategy_returns_pre p prices s' u a := by
  unfold strategy_returns_pre
  rw [raw_positions_congr H hu, costs_congr p H hu]

/-- The trailing 21-day standard deviation at u reads its input only at
days up to u. -/
theorem rolling_std_21_congr (sq : α → α) {x y : ℕ → PV α} {u : ℕ}
    (H : ∀ v, v ≤ u → x v = y v) :
    rolling_std_21 sq x u = rolling_std_21 sq y u := by
  unfold rolling_std_21
  by_cases h : u + 1 < 21
  · simp [h]
  · have hw : (List.range 21).map (fun k => x (u + 1 - 21 + k)) =
        (List.range 21).map (fun k => y (u + 1 - 21 + k)) := by
      apply List.map_congr_left
      intro k hk
      exact H (u + 1 - 21 + k) (by simp [List.mem_range] at hk; omega)
    simp only [h, if_false, hw]

/-- The trailing annualized volatility at a day up to t only reads signals
strictly before t. -/
theorem rolling_vol_congr (p : BTParams α) (prices : ℕ → ℕ → α)
    {s s' : ℕ → ℕ → α} {t : ℕ} (sq : α → α)
    (H : ∀ u a, u < t → s u a = s' u a) {u : ℕ} (hu : u ≤ t) (a : ℕ) :
    rolling_vol p prices s sq u a = rolling_vol p prices s' sq u a := by
  unfold rolling_vol
  rw [rolling_std_21_congr sq (fun v hv =>
    strategy_returns_pre_congr p prices H (le_trans hv hu) a)]

/-- The volatility scale at a day up to t only reads signals strictly
before t. -/
theorem vol_scale_congr (p : BTParams α) (prices : ℕ → ℕ → α)
    {s s' : ℕ → ℕ → α} {t : ℕ} (sq : α → α) (tv : α)
    (H : ∀ u a, u < t → s u a = s' u a) {u : ℕ} (hu : u ≤ t) (a : ℕ) :
    vol_scale p prices s sq tv u a = vol_scale p prices s' sq tv u a := by
  unfold vol_scale
  rw [rolling_vol_congr p prices sq H hu]

/-- Positions at a day up to t only read signals strictly before t, with
or without volatility targeting. -/
theorem positions_congr (p : BTParams α) (prices : ℕ → ℕ → α)
    {s s' : ℕ → ℕ → α} {t : ℕ} (sq : α → α)
    (H : ∀ u a, u < t → s u a = s' u a) {u : ℕ} (hu : u ≤ t) (a : ℕ) :
    positions p prices s sq u a = positions p prices s' sq u a := by
  cases hp : p.target_volatility with
  | none => simp [positions, hp, raw_positions_congr H hu]
  | some tv =>
      simp [positions, hp, raw_positions_congr H hu,
        vol_scale_congr p prices sq tv H hu]

theorem PV.nan_sub (y : PV α) : PV.sub PV.nan y = PV.nan := by
  cases y <;> rfl

/-- With an all-zero signal matrix every raw position is zero. -/
theorem raw_positions_zero_sig {sig : ℕ → ℕ → α}
    (hsig : ∀ t a, sig t a = 0) (t a : ℕ) : raw_positions sig t a = 0 := by
  unfold raw_positions
  by_cases h : t = 0 <;> simp [h, hsig]

/-- With an all-zero signal matrix, day-0 turnover and cost are NaN and
all later turnovers and costs are exactly zero. -/
theorem turnover_zero_sig (p : BTParams α) {sig : ℕ → ℕ → α}
    (hsig : ∀ t a, sig t a = 0) :
    (∀ a, position_changes sig 0 a = PV.nan ∧ costs p sig 0 a = PV.nan)
    ∧ (∀ t a, 0 < t → position_changes sig t a = PV.fin 0 ∧
        costs p sig t a = PV.fin 0) := by
  constructor
  · intro a
    refine ⟨rfl, ?_⟩
    show PV.mul _ (position_changes sig 0 a) = PV.nan
    exact PV.mul_nan _
  · intro t a ht
    have hpc : position_changes sig t a = PV.fin 0 := by
      unfold position_changes
      rw [if_neg (by omega), raw_positions_zero_sig hsig,
        raw_positions_zero_sig hsig]
      simp
    refine ⟨hpc, ?_⟩
    show PV.mul _ (position_changes sig t a) = PV.fin 0
    rw [hpc, PV.fin_mul_fin, mul_zero]

/-- With nonzero prices every pandas return value is finite. -/
theorem returns_fin {prices : ℕ → ℕ → α} (hpr : ∀ t a, prices t a ≠ 0)
    (t a : ℕ) : ∃ r : α, returns prices t a = PV.fin r := by
  unfold returns
  by_cases h : t = 0
  · exact ⟨0, by simp [h, PV.fillna]⟩
  · refine ⟨(prices t a - prices (t - 1) a) / prices (t - 1) a, ?_⟩
    simp [h, PV.div, hpr (t - 1) a, PV.fillna]

/-- With an all-zero signal matrix and nonzero prices the scaled strategy
returns are NaN on day 0 and exactly zero afterwards. -/
theorem strategy_returns_zero_sig (p : BTParams α) {prices sig : ℕ → ℕ → α}
    (sq : α → α) (hsig : ∀ t a, sig t a = 0) (hpr : ∀ t a, prices t a ≠ 0) :
    (∀ a, strategy_returns p prices sig sq 0 a = PV.nan)
    ∧ (∀ t a, 0 < t → strategy_returns p prices sig sq t a = PV.fin 0) := by
  have hsrp0 : ∀ a, strategy_returns_pre p prices sig 0 a = PV.nan := by
    intro a
    unfold strategy_returns_pre
    rw [((turnover_zero_sig p hsig).1 a).2]
    exact PV.sub_nan _
  have hsrp : ∀ t a, 0 < t → strategy_returns_pre p prices sig t a = PV.fin 0 := by
    intro t a ht
    unfold strategy_returns_pre
    obtain ⟨r, hr⟩ := returns_fin hpr t a
    rw [((turnover_zero_sig p hsig).2 t a ht).2, raw_positions_zero_sig hsig,
      hr, PV.fin_mul_fin, zero_mul, PV.fin_sub_fin, sub_zero]
  constructor
  · intro a
    cases hp : p.target_volatility with
    | none => simp [strategy_returns, hp, hsrp0]
    | some tv => simp [strategy_returns, hp, hsrp0, PV.nan_mul]
  · intro t a ht
    cases hp : p.target_volatility with
    | none => simp [strategy_returns, hp, hsrp t a ht]
    | some tv =>
        obtain ⟨q, hq, _, _⟩ := vol_scale_mem p prices sig sq tv t a
        simp [strategy_returns, hp, hsrp t a ht, hq, PV.fin_mul_fin]

/-- With an all-zero signal matrix and nonzero prices the daily portfolio
return is NaN on day 0 and exactly zero afterwards. -/
theorem dpr_zero_sig (p : BTParams α) (A : ℕ) {prices sig : ℕ → ℕ → α}
    (sq : α → α) (hA : 0 < A) (hsig : ∀ t a, sig t a = 0)
    (hpr : ∀ t a, prices t a ≠ 0) :
    daily_portfolio_return p A prices sig sq 0 = PV.nan
    ∧ (∀ t, 0 < t → daily_portfolio_return p A prices sig sq t = PV.fin 0) := by
  constructor
  · apply meanSkipNa_all_nan
    intro v hv
    obtain ⟨a, _, rfl⟩ := List.mem_map.mp hv
    exact (strategy_returns_zero_sig p sq hsig hpr).1 a
  · intro t ht
    apply meanSkipNa_zero
    · simp [List.map_eq_nil_iff, List.range_eq_nil]
      omega
    · intro v hv
      obtain ⟨a, _, rfl⟩ := List.mem_map.mp hv
      exact (strategy_returns_zero_sig p sq hsig hpr).2 t a ht

/-- With an all-zero signal matrix and nonzero prices the equity curve is
NaN on day 0 and pinned at the initial capital afterwards. -/
theorem equity_zero_sig (p : BTParams α) (A : ℕ) {prices sig : ℕ → ℕ → α}
    (sq : α → α) (hA : 0 < A) (hsig : ∀ t a, sig t a = 0)
    (hpr : ∀ t a, prices t a ≠ 0) :
    equity p A prices sig sq 0 = PV.nan
    ∧ (∀ t, 0 < t → equity p A prices sig sq t = PV.fin p.initial_capital) := by
  have hf0 : PV.add (PV.fin 1) (daily_portfolio_return p A prices sig sq 0) =
      (PV.nan : PV α) := by
    rw [(dpr_zero_sig p A sq hA hsig hpr).1]
    exact PV.add_nan _
  have hf : ∀ t, 0 < t →
      PV.add (PV.fin 1) (daily_portfolio_return p A prices sig sq t) =
        (PV.fin 1 : PV α) := by
    intro t ht
    rw [(dpr_zero_sig p A sq hA hsig hpr).2 t ht, PV.fin_add_fin, add_zero]
  have hacc : ∀ n, PV.cumprodAcc
      (fun u => PV.add (PV.fin 1) (daily_portfolio_return p A prices sig sq u)) n
      = PV.fin 1 := by
    intro n
    induction n with
    | zero => unfold PV.cumprodAcc; simp [hf0]
    | succ n ih =>
        unfold PV.cumprodAcc
        rw [hf (n + 1) (by omega)]
        simp [ih, PV.fin_mul_fin]
  constructor
  · unfold equity PV.cumprod
    simp only [hf0]
    simp [PV.nan_mul]
  · intro t ht
    unfold equity PV.cumprod
    simp only [hf t ht]
    simp [hacc t, PV.fin_mul_fin]

theorem PV.fin_div_fin_of_ne (a b : α) (hb : b ≠ 0) :
    PV.div (PV.fin a) (PV.fin b) = PV.fin (a / b) := by
  simp [PV.div, hb]

theorem PV.fin_div_fin_zero_of_neg (a : α) (ha : a < 0) :
    PV.div (PV.fin a) (PV.fin 0) = PV.ninf := by
  simp [PV.div, ha.ne, not_lt.mpr ha.le]

theorem PV.ninf_mul_fin_pos (b : α) (hb : 0 < b) :
    PV.mul PV.ninf (PV.fin b) = PV.ninf := by
  simp [PV.mul, hb]

/-- The skip-NaN mean of a NaN followed by two equal finite values is that
value. -/
theorem meanSkipNa_nan_two (c : α) :
    PV.meanSkipNa [PV.nan, PV.fin c, PV.fin c] = PV.fin c := by
  have hfil : ([PV.nan, PV.fin c, PV.fin c].filter (fun v => v ≠ PV.nan))
      = [PV.fin c, PV.fin c] := rfl
  simp only [PV.meanSkipNa, hfil]
  norm_num [PV.fin_add_fin]
  rw [PV.fin_div_fin_of_ne _ _ (by norm_num : (2 : α) ≠ 0)]
  congr 1
  ring

/-- The skip-NaN sample standard deviation of a NaN followed by two equal
finite values is sq 0, i.e. 0 for a square root with sq 0 = 0. -/
theorem stdSkipNa_nan_two (sq : α → α) (c : α) (h0 : sq 0 = 0) :
    PV.stdSkipNa sq [PV.nan, PV.fin c, PV.fin c] = PV.fin 0 := by
  have hfil : ([PV.nan, PV.fin c, PV.fin c].filter (fun v => v ≠ PV.nan))
      = [PV.fin c, PV.fin c] := rfl
  simp only [PV.stdSkipNa, hfil]
  norm_num [PV.fin_add_fin]
  rw [PV.fin_div_fin_of_ne _ _ (by norm_num : (2 : α) ≠ 0), PV.fin_sub_fin]
  have hm : c - (c + c) / (2 : α) = 0 := by ring
  rw [hm]
  norm_num [PV.fin_mul_fin, PV.fin_add_fin]
  rw [PV.fin_div_fin_of_ne _ _ (by norm_num : (1 : α) ≠ 0)]
  norm_num [PV.sqrtApply, h0]

/-- Reading position t of the tabulation of f over range n gives f t. -/
theorem getD_map_range {β : Type} (f : ℕ → β) (n t : ℕ) (ht : t < n) (d : β) :
    ((List.range n).map f).getD t d = f t := by
  rw [List.getD_eq_getElem _ _ (by simpa using ht)]
  simp

end Lemmas

/-!
The claim theorems.
-/

section Claims

variable {α : Type} [LinearOrderedField α]

/-- C1: No-lookahead.  For any two signal tables that agree on all days
strictly before t (and any prices, parameters, square root and power
function, so in particular with volatility targeting enabled), the
positions reported by run agree on every day up to and including t;
moreover the raw position on a day u is exactly the signal of day u - 1,
the raw position of day 0 is 0, and the reported day-0 position is exactly 0. -/
theorem claim_no_lookahead (p : BTParams α) (T A : ℕ)
    (prices s s' : ℕ → ℕ → α) (sq : α → α) (rpow : α → α → α) (t : ℕ)
    (H : ∀ u a, u < t → s u a = s' u a) :
    (∀ u, u ≤ t → ∀ a, (run p T A prices s sq rpow).positions u a =
        (run p T A prices s' sq rpow).positions u a)
    ∧ (∀ u a, 0 < u → raw_positions s u a = s (u - 1) a)
    ∧ (∀ a, raw_positions s 0 a = 0)
    ∧ (∀ a, (run p T A prices s sq rpow).positions 0 a = PV.fin 0) := by
  refine ⟨fun u hu a => ?_, fun u a hu => ?_, fun a => rfl, fun a => ?_⟩
  · show positions p prices s sq u a = positions p prices s' sq u a
    exact positions_congr p prices sq H hu a
  · unfold raw_positions
    rw [if_neg (by omega)]
  · show positions p prices s sq 0 a = PV.fin 0
    exact positions_of_raw_zero p prices s sq 0 a rfl

/-- Witness for C1: two concrete signal tables differing only on day 1
leave all positions up to day 1 identical; raw positions lag by one day
and the day-0 position is 0. -/
theorem claim_no_lookahead_witness :
    (∀ u, u ≤ 1 → ∀ a, (run exParams 3 1 risingPrices sigA qsq qpow).positions u a =
        (run exParams 3 1 risingPrices sigB qsq qpow).positions u a)
    ∧ (∀ u a, 0 < u → raw_positions sigA u a = sigA (u - 1) a)
    ∧ (∀ a, raw_positions sigA 0 a = 0)
    ∧ (∀ a, (run exParams 3 1 risingPrices sigA qsq qpow).positions 0 a = PV.fin 0) :=
  claim_no_lookahead exParams 3 1 risingPrices sigA sigB qsq qpow 1
    (fun u a hu => by
      have h0 : u = 0 := by omega
      subst h0
      rfl)

/-- C2 counterexample: with the all-zero signal matrix on a 2-day
constant-price table, the day-0 turnover and cost are NaN rather than 0,
and the day-0 equity is NaN rather than the initial capital: the diff of
the first row is NaN and that NaN propagates through costs, strategy
returns and the cumulative product. -/
theorem claim_zero_signal_counterexample :
    position_changes zeroSig 0 0 = (PV.nan : PV ℚ)
    ∧ costs exParams zeroSig 0 0 = PV.nan
    ∧ (run exParams 2 1 constPrices zeroSig qsq qpow).equity 0 = PV.nan
    ∧ (run exParams 2 1 constPrices zeroSig qsq qpow).equity 0 ≠ PV.fin 100000 := by
  refine ⟨by decide, by decide, by decide, by decide⟩

/-- C2 (amended): with an all-zero signal matrix (and nowhere-zero
prices), every day after the first has exactly zero turnover, zero cost
and an equity pinned at the initial capital; on the first day turnover,
cost and equity are NaN (undefined), not zero. -/
theorem claim_zero_signal_conservation (p : BTParams α) (T A : ℕ)
    (prices sig : ℕ → ℕ → α) (sq : α → α) (rpow : α → α → α) (hA : 0 < A)
    (hsig : ∀ t a, sig t a = 0) (hpr : ∀ t a, prices t a ≠ 0) :
    (∀ t a, 0 < t → position_changes sig t a = PV.fin 0 ∧
      costs p sig t a = PV.fin 0)
    ∧ (∀ a, position_changes sig 0 a = PV.nan ∧ costs p sig 0 a = PV.nan)
    ∧ (∀ t, 0 < t → (run p T A prices sig sq rpow).equity t =
        PV.fin p.initial_capital)
    ∧ (run p T A prices sig sq rpow).equity 0 = PV.nan := by
  refine ⟨(turnover_zero_sig p hsig).2, (turnover_zero_sig p hsig).1,
    fun t ht => ?_, ?_⟩
  · show equity p A prices sig sq t = PV.fin p.initial_capital
    exact (equity_zero_sig p A sq hA hsig hpr).2 t ht
  · show equity p A prices sig sq 0 = PV.nan
    exact (equity_zero_sig p A sq hA hsig hpr).1

/-- Witness for C2 (amended) at a concrete 3-day constant-price run. -/
theorem claim_zero_signal_conservation_witness :
    (∀ t a, 0 < t → position_changes zeroSig t a = (PV.fin 0 : PV ℚ) ∧
      costs exParams zeroSig t a = PV.fin 0)
    ∧ (∀ a, position_changes zeroSig 0 a = (PV.nan : PV ℚ) ∧
      costs exParams zeroSig 0 a = PV.nan)
    ∧ (∀ t, 0 < t → (run exParams 3 1 constPrices zeroSig qsq qpow).equity t =
        PV.fin exParams.initial_capital)
    ∧ (run exParams 3 1 constPrices zeroSig qsq qpow).equity 0 = PV.nan :=
  claim_zero_signal_conservation exParams 3 1 constPrices zeroSig qsq qpow
    (by decide) (fun _ _ => rfl) (fun _ _ => by norm_num [constPrices])

/-- C6: Volatility-targeting scale.  When a target volatility is set, the
scale is the NaN-filled clamp of target over trailing volatility: it is
always a finite value in the closed interval from 0 to 2, it is exactly 1
wherever the trailing volatility is undefined (NaN), it equals
clamp(target / trailingVol, 0, 2) wherever that ratio is defined, and it
multiplies both the positions and the strategy returns. -/
theorem claim_vol_targeting_scale (p : BTParams α) (prices sig : ℕ → ℕ → α)
    (sq : α → α) (tv : α) (h : p.target_volatility = some tv) :
    (∀ t a, ∃ q : α, vol_scale p prices sig sq tv t a = PV.fin q ∧
      0 ≤ q ∧ q ≤ 2)
    ∧ (∀ t a, rolling_vol p prices sig sq t a = PV.nan →
        vol_scale p prices sig sq tv t a = PV.fin 1)
    ∧ (∀ t a, PV.div (PV.fin tv) (rolling_vol p prices sig sq t a) ≠ PV.nan →
        vol_scale p prices sig sq tv t a =
          PV.clip 0 2 (PV.div (PV.fin tv) (rolling_vol p prices sig sq t a)))
    ∧ (∀ t a, positions p prices sig sq t a =
        PV.mul (PV.fin (raw_positions sig t a)) (vol_scale p prices sig sq tv t a)
      ∧ strategy_returns p prices sig sq t a =
        PV.mul (strategy_returns_pre p prices sig t a)
          (vol_scale p prices sig sq tv t a)) := by
  refine ⟨fun t a => vol_scale_mem p prices sig sq tv t a,
    fun t a hv => ?_, fun t a hd => ?_, fun t a => ?_⟩
  · unfold vol_scale
    rw [hv]
    rfl
  · unfold vol_scale
    cases hx : PV.div (PV.fin tv) (rolling_vol p prices sig sq t a) with
    | fin q => rfl
    | pinf => rfl
    | ninf => rfl
    | nan => exact (hd hx).elim
  · exact ⟨by simp [positions, h], by simp [strategy_returns, h]⟩

/-- Witness for C6 at the concrete 10-percent-target parameters. -/
theorem claim_vol_targeting_scale_witness :
    (∀ t a, ∃ q : ℚ, vol_scale exParamsVT constPrices zeroSig qsq (1/10) t a =
      PV.fin q ∧ 0 ≤ q ∧ q ≤ 2)
    ∧ (∀ t a, rolling_vol exParamsVT constPrices zeroSig qsq t a = PV.nan →
        vol_scale exParamsVT constPrices zeroSig qsq (1/10) t a = PV.fin 1)
    ∧ (∀ t a, PV.div (PV.fin (1/10 : ℚ))
        (rolling_vol exParamsVT constPrices zeroSig qsq t a) ≠ PV.nan →
        vol_scale exParamsVT constPrices zeroSig qsq (1/10) t a =
          PV.clip 0 2 (PV.div (PV.fin (1/10))
            (rolling_vol exParamsVT constPrices zeroSig qsq t a)))
    ∧ (∀ t a, positions exParamsVT constPrices zeroSig qsq t a =
        PV.mul (PV.fin (raw_positions zeroSig t a))
          (vol_scale exParamsVT constPrices zeroSig qsq (1/10) t a)
      ∧ strategy_returns exParamsVT constPrices zeroSig qsq t a =
        PV.mul (strategy_returns_pre exParamsVT constPrices zeroSig t a)
          (vol_scale exParamsVT constPrices zeroSig qsq (1/10) t a)) :=
  claim_vol_targeting_scale exParamsVT constPrices zeroSig qsq (1/10) rfl

/-- C10: weights are positions divided row-wise by the daily gross
exposure; on a date whose gross exposure is exactly zero the weight is
NaN (undefined), not zero, and in particular every day-0 weight is NaN. -/
theorem claim_weights_undefined_on_zero_gross (p : BTParams α) (A : ℕ)
    (prices sig : ℕ → ℕ → α) (sq : α → α) (t a : ℕ) (haA : a < A) :
    (weights p A prices sig sq t a =
      PV.div (positions p prices sig sq t a) (gross_exposure p A prices sig sq t))
    ∧ (gross_exposure p A prices sig sq t = PV.fin 0 →
        weights p A prices sig sq t a = PV.nan)
    ∧ weights p A prices sig sq 0 a = PV.nan := by
  refine ⟨rfl, fun hg => ?_, ?_⟩
  · choose g hg' using fun b => positions_fin p prices sig sq t b
    have hmap : (List.range A).map (fun b => PV.abs (positions p prices sig sq t b))
        = (List.range A).map (fun b => PV.fin |g b|) :=
      List.map_congr_left (fun b _ => by rw [hg' b]; rfl)
    have hge : gross_exposure p A prices sig sq t =
        PV.fin (((List.range A).map (fun b => |g b|)).sum) := by
      unfold gross_exposure
      rw [hmap]
      exact sumSkipNa_map_fin _ _
    rw [hge] at hg
    have hsum : ((List.range A).map (fun b => |g b|)).sum = 0 := by
      simpa using hg
    have hz : |g a| = 0 := by
      refine sum_nonneg_all_zero _ (fun x hx => ?_) hsum _ ?_
      · obtain ⟨b, _, rfl⟩ := List.mem_map.mp hx
        exact abs_nonneg _
      · exact List.mem_map.mpr ⟨a, List.mem_range.mpr haA, rfl⟩
    have hga : g a = 0 := abs_eq_zero.mp hz
    unfold weights
    rw [hge, hsum, hg' a, hga]
    simp [PV.div]
  · have hp0 : ∀ b, positions p prices sig sq 0 b = PV.fin 0 := fun b =>
      positions_of_raw_zero p prices sig sq 0 b rfl
    have hge : gross_exposure p A prices sig sq 0 = PV.fin 0 := by
      unfold gross_exposure
      rw [List.map_congr_left (fun b _ => by rw [hp0 b]; rfl :
        ∀ b ∈ List.range A,
          PV.abs (positions p prices sig sq 0 b) = PV.fin |(0 : α)|)]
      rw [sumSkipNa_map_fin (fun _ => |(0 : α)|) (List.range A)]
      simp
    unfold weights
    rw [hp0 a, hge]
    simp [PV.div]

/-- Witness for C10 at a concrete single-asset run. -/
theorem claim_weights_undefined_on_zero_gross_witness :
    (weights exParams 1 risingPrices sigA qsq 0 0 =
      PV.div (positions exParams risingPrices sigA qsq 0 0)
        (gross_exposure exParams 1 risingPrices sigA qsq 0))
    ∧ (gross_exposure exParams 1 risingPrices sigA qsq 0 = PV.fin 0 →
        weights exParams 1 risingPrices sigA qsq 0 0 = PV.nan)
    ∧ weights exParams 1 risingPrices sigA qsq 0 0 = PV.nan :=
  claim_weights_undefined_on_zero_gross exParams 1 risingPrices sigA qsq 0 0
    (by decide)

/-- C8: Trade-list characterization.  The trades table of the result
contains exactly those dates whose aggregate absolute raw-position change
summed across assets is nonzero (day 0, whose diff row is NaN, sums to 0
and is never a trade date), and each row carries the total turnover of
that date and the portfolio equity at that date. -/
theorem claim_trade_list (p : BTParams α) (T A : ℕ) (prices sig : ℕ → ℕ → α)
    (sq : α → α) (rpow : α → α → α) :
    (∀ t, t ∈ (run p T A prices sig sq rpow).trades.map (fun r => r.1) ↔
      (t < T ∧ 0 < t ∧
        ((List.range A).map (fun a =>
          |raw_positions sig t a - raw_positions sig (t - 1) a|)).sum ≠ 0))
    ∧ (∀ r ∈ (run p T A prices sig sq rpow).trades,
        r.2.1 = PV.fin (((List.range A).map (fun a =>
          |raw_positions sig r.1 a - raw_positions sig (r.1 - 1) a|)).sum)
        ∧ r.2.2 = (run p T A prices sig sq rpow).equity r.1) := by
  have h0 : total_position_change A sig 0 = (PV.fin 0 : PV α) := by
    apply sumSkipNa_all_nan
    intro v hv
    obtain ⟨a, _, rfl⟩ := List.mem_map.mp hv
    rfl
  have hpos : ∀ t, 0 < t → total_position_change A sig t =
      PV.fin (((List.range A).map (fun a =>
        |raw_positions sig t a - raw_positions sig (t - 1) a|)).sum) := by
    intro t ht
    unfold total_position_change
    rw [List.map_congr_left (fun a _ => show position_changes sig t a =
      PV.fin |raw_positions sig t a - raw_positions sig (t - 1) a| from by
        unfold position_changes
        rw [if_neg (by omega)])]
    exact sumSkipNa_map_fin _ _
  have htd : ∀ t, t ∈ trade_dates T A sig ↔
      (t < T ∧ 0 < t ∧
        ((List.range A).map (fun a =>
          |raw_positions sig t a - raw_positions sig (t - 1) a|)).sum ≠ 0) := by
    intro t
    unfold trade_dates
    rw [List.mem_filter]
    simp only [List.mem_range, decide_eq_true_eq]
    constructor
    · rintro ⟨hT, hne⟩
      rcases Nat.eq_zero_or_pos t with h | h
      · subst h
        exact (hne h0).elim
      · refine ⟨hT, h, ?_⟩
        intro hs
        exact hne (by rw [hpos t h, hs])
    · rintro ⟨hT, h, hs⟩
      refine ⟨hT, ?_⟩
      rw [hpos t h]
      simpa using hs
  constructor
  · intro t
    show t ∈ (trades p T A prices sig sq).map (fun r => r.1) ↔ _
    unfold trades
    rw [List.map_map]
    simpa using htd t
  · intro r hr
    obtain ⟨t, ht, rfl⟩ := List.mem_map.mp hr
    have h : 0 < t := by
      rcases Nat.eq_zero_or_pos t with h | h
      · subst h
        have := (List.mem_filter.mp ht).2
        simp only [decide_eq_true_eq] at this
        exact (this h0).elim
      · exact h
    exact ⟨by simpa using hpos t h, rfl⟩

/-- Witness for C8 on a concrete 4-day run whose single trade date is
day 2: the signal switches on at day 1, so the lagged position first
changes on day 2. -/
theorem claim_trade_list_witness :
    (∀ t, t ∈ (run exParams 4 1 risingPrices sigA qsq qpow).trades.map
        (fun r => r.1) ↔
      (t < 4 ∧ 0 < t ∧
        ((List.range 1).map (fun a =>
          |raw_positions sigA t a - raw_positions sigA (t - 1) a|)).sum ≠ 0))
    ∧ (∀ r ∈ (run exParams 4 1 risingPrices sigA qsq qpow).trades,
        r.2.1 = PV.fin (((List.range 1).map (fun a =>
          |raw_positions sigA r.1 a - raw_positions sigA (r.1 - 1) a|)).sum)
        ∧ r.2.2 = (run exParams 4 1 risingPrices sigA qsq qpow).equity r.1) :=
  claim_trade_list exParams 4 1 risingPrices sigA qsq qpow

/-- C3 (code-bug evaluation): Sharpe degeneracy.  On a 3-day single-asset
constant-price run with the all-zero signal and the default engine
parameters, the excess daily returns have zero sample standard deviation
and strictly negative mean, so mean/std is -inf; the guard only replaces
NaN (np.isnan), so run reports sharpe as -inf, not the documented 0.
Stated for any square-root-like function with sq 0 = 0 and 0 < sq 252,
which the real square root satisfies. -/
theorem claim_sharpe_degenerate_neg_inf (sq : α → α) (h0 : sq 0 = 0)
    (h252 : 0 < sq 252) :
    (run (⟨100000, none, 5/100, 1/1000, 1/1000⟩ : BTParams α) 3 1
      (fun _ _ => 1) (fun _ _ => 0) sq (fun a _ => a)).sharpe = PV.ninf := by
  show sharpe (⟨100000, none, 5/100, 1/1000, 1/1000⟩ : BTParams α) 3 1
    (fun _ _ => 1) (fun _ _ => 0) sq = PV.ninf
  have hd := dpr_zero_sig (⟨100000, none, 5/100, 1/1000, 1/1000⟩ : BTParams α)
    1 sq (by norm_num) (fun _ _ => rfl) (fun _ _ => one_ne_zero)
  have hex0 : excess_returns (⟨100000, none, 5/100, 1/1000, 1/1000⟩ : BTParams α)
      1 (fun _ _ => 1) (fun _ _ => 0) sq 0 = PV.nan := by
    unfold excess_returns
    rw [hd.1]
    exact PV.nan_sub _
  have hex : ∀ t, 0 < t →
      excess_returns (⟨100000, none, 5/100, 1/1000, 1/1000⟩ : BTParams α)
        1 (fun _ _ => 1) (fun _ _ => 0) sq t = PV.fin (0 - 5/100/252) := by
    intro t ht
    unfold excess_returns
    rw [hd.2 t ht, PV.fin_sub_fin]
  have hl : (List.range 3).map
      (excess_returns (⟨100000, none, 5/100, 1/1000, 1/1000⟩ : BTParams α)
        1 (fun _ _ => 1) (fun _ _ => 0) sq) =
      [PV.nan, PV.fin (0 - 5/100/252), PV.fin (0 - 5/100/252)] := by
    have h3 : List.range 3 = [0, 1, 2] := rfl
    rw [h3]
    simp only [List.map_cons, List.map_nil]
    rw [hex0, hex 1 (by norm_num), hex 2 (by norm_num)]
  simp only [sharpe, hl, meanSkipNa_nan_two, stdSkipNa_nan_two sq _ h0]
  rw [PV.fin_div_fin_zero_of_neg _ (by norm_num : (0 - 5/100/252 : α) < 0),
    PV.ninf_mul_fin_pos _ h252, if_neg (fun h => PV.noConfusion h)]

/-- Witness for C3 at the rationals with the identity standing in for the
square root (it satisfies sq 0 = 0 and 0 < sq 252). -/
theorem claim_sharpe_degenerate_neg_inf_witness :
    (run (⟨100000, none, 5/100, 1/1000, 1/1000⟩ : BTParams ℚ) 3 1
      (fun _ _ => 1) (fun _ _ => 0) qsq (fun a _ => a)).sharpe = PV.ninf :=
  claim_sharpe_degenerate_neg_inf qsq rfl (by norm_num [qsq])

/-- C5 (code-bug evaluation): Momentum signal definition.  On a one-row
frame carrying close 10, sma_10 = 5 and sma_21 = 20, MomentumSignal with
window 10 returns -1 -- the sign of close minus the 21-day SMA -- while
the sign of close minus the 10-day SMA (the claimed value, with the same
zero handling) is +1: the membership test of line 49 checks for the literal
column name sma_\x7bself.window\x7d (the f prefix is missing), so the
window-specific column is never selected. -/
theorem claim_momentum_window_bug :
    momentumGenerate 10 exFeat = .ok [PV.fin (-1)]
    ∧ List.zipWith (fun c s => PV.fillna 0 (replaceZeroNan (PV.sign (PV.sub c s))))
        (exFeat.col "close") (exFeat.col "sma_10") = [PV.fin 1] := by
  constructor
  · have h0 : momentumGenerate 10 exFeat =
        .ok [PV.fillna 0 (replaceZeroNan (PV.sign (PV.sub (PV.fin 10) (PV.fin 20))))] :=
      rfl
    rw [h0]
    norm_num [PV.sign, PV.sub, PV.add, PV.neg, replaceZeroNan, PV.fillna]
  · have h0 : List.zipWith (fun c s => PV.fillna 0 (replaceZeroNan (PV.sign (PV.sub c s))))
        (exFeat.col "close") (exFeat.col "sma_10") =
        [PV.fillna 0 (replaceZeroNan (PV.sign (PV.sub (PV.fin 10) (PV.fin 5))))] := rfl
    rw [h0]
    norm_num [PV.sign, PV.sub, PV.add, PV.neg, replaceZeroNan, PV.fillna]

/-- C7: Combiner discretization.  Whenever every member generator
succeeds, the combined output tabulates the weight-normalized mean score
discretized at the 0.33 thresholds, and every output value is +1, 0 or
-1. -/
theorem claim_combiner_discretization (gens : List (String × Gen α))
    (wts : Option (List (String × α))) (df : Feat α) (out : List (PV α))
    (h : combinerGenerate gens wts df = .ok out) :
    (∃ results, collectSigs df gens = .ok results ∧
      ∀ t, t < df.nrows → out.getD t PV.nan =
        (if PV.lt (PV.fin ((33 : α) / 100)) (combinedScore wts results t)
          then PV.fin 1
         else if PV.lt (combinedScore wts results t) (PV.fin (-((33 : α) / 100)))
          then PV.fin (-1)
         else PV.fin 0))
    ∧ (∀ v ∈ out, v = PV.fin 1 ∨ v = PV.fin 0 ∨ v = PV.fin (-1)) := by
  unfold combinerGenerate at h
  cases hc : collectSigs df gens with
  | error e =>
      rw [hc] at h
      exact absurd h (by simp [Bind.bind, Except.bind])
  | ok results =>
      rw [hc] at h
      simp only [Bind.bind, Except.bind, Except.ok.injEq] at h
      subst h
      constructor
      · refine ⟨results, rfl, fun t ht => ?_⟩
        rw [getD_map_range _ _ _ ht]
      · intro v hv
        obtain ⟨t, _, rfl⟩ := List.mem_map.mp hv
        by_cases h1 : PV.lt (PV.fin ((33 : α) / 100)) (combinedScore wts results t)
        · simp [h1]
        · by_cases h2 : PV.lt (combinedScore wts results t)
              (PV.fin (-((33 : α) / 100)))
          · simp [h1, h2]
          · simp [h1, h2]

/-- Witness for C7: a two-member equally weighted combiner of constant
+1 and -1 generators on a two-row frame yields the all-zero output. -/
theorem claim_combiner_discretization_witness :
    (∃ results, collectSigs exFeat2
        [("up", exGen (PV.fin 1)), ("down", exGen (PV.fin (-1)))] = .ok results ∧
      ∀ t, t < exFeat2.nrows →
        ([PV.fin 0, PV.fin 0] : List (PV ℚ)).getD t PV.nan =
        (if PV.lt (PV.fin ((33 : ℚ) / 100)) (combinedScore none results t)
          then PV.fin 1
         else if PV.lt (combinedScore none results t) (PV.fin (-((33 : ℚ) / 100)))
          then PV.fin (-1)
         else PV.fin 0))
    ∧ (∀ v ∈ ([PV.fin 0, PV.fin 0] : List (PV ℚ)),
        v = PV.fin 1 ∨ v = PV.fin 0 ∨ v = PV.fin (-1)) :=
  claim_combiner_discretization
    [("up", exGen (PV.fin 1)), ("down", exGen (PV.fin (-1)))] none exFeat2
    [PV.fin 0, PV.fin 0] (by
      have h0 : combinerGenerate
          [("up", exGen (PV.fin 1)), ("down", exGen (PV.fin (-1)))] none exFeat2 =
          .ok ((List.range 2).map (fun t =>
            let c := PV.div (PV.sumSkipNa [PV.mul (PV.fin 1) (PV.fin 1),
              PV.mul (PV.fin (-1)) (PV.fin 1)]) (PV.fin (1 + (1 + 0)))
            if PV.lt (PV.fin ((33 : ℚ) / 100)) c then PV.fin 1
            else if PV.lt c (PV.fin (-((33 : ℚ) / 100))) then PV.fin (-1)
            else PV.fin 0)) := rfl
      rw [h0]
      have hc : PV.div (PV.sumSkipNa [PV.mul (PV.fin 1) (PV.fin 1),
          PV.mul (PV.fin (-1)) (PV.fin 1)]) (PV.fin (1 + (1 + 0) : ℚ)) = PV.fin 0 := by
        have h1 : PV.sumSkipNa [PV.mul (PV.fin 1) (PV.fin 1),
            PV.mul (PV.fin (-1)) (PV.fin (1 : ℚ))] = PV.fin (0 + 1 * 1 + -1 * 1) := rfl
        rw [h1, PV.fin_div_fin_of_ne _ _ (by norm_num : (1 + (1 + 0) : ℚ) ≠ 0)]
        norm_num
      rw [hc]
      norm_num [PV.lt, List.range_succ])

/-- C9: Input purity of feature computation.  At heap level, compute_all
allocates a copy of the input frame and mutates only the copy: whatever
the outcome, the object of the caller is unchanged, and the returned reference
is never the input reference. -/
theorem claim_feature_input_purity (logF sq : α → α) (h : Heap α) (r : ℕ)
    (b : Bool) (hr : r < h.length) :
    heapGet (((compute_all logF sq h r b).toOption.getD (h, r)).1) r = heapGet h r
    ∧ (compute_all logF sq h r b).toOption.map Prod.snd ≠ some r := by
  have hne : h.length ≠ r := by omega
  have key : ∀ (hp : Heap α) (fr : Frame α),
      heapGet (heapSet hp h.length fr) r = heapGet hp r := fun hp fr =>
    heapGet_set_ne hp h.length r fr hne
  simp only [compute_all]
  split
  · exact ⟨rfl, by simp [Except.toOption]⟩
  · constructor
    · show heapGet (if b = true then _ else _) r = heapGet h r
      cases b with
      | false =>
          rw [if_neg (fun hc => Bool.noConfusion hc)]
          rw [key, key, key]
          exact heapGet_append h _ r hr
      | true =>
          rw [if_pos rfl]
          rw [key, key, key, key]
          exact heapGet_append h _ r hr
    · simp [Except.toOption, hne]

/-- Witness for C9: a concrete one-object heap with a close-only frame,
run through the full feature pipeline. -/
theorem claim_feature_input_purity_witness :
    heapGet (((compute_all qsq qsq exHeap 0 true).toOption.getD (exHeap, 0)).1) 0 =
      heapGet exHeap 0
    ∧ (compute_all qsq qsq exHeap 0 true).toOption.map Prod.snd ≠ some 0 :=
  claim_feature_input_purity qsq qsq exHeap 0 true (by decide)

end Claims

end QuantStack
